import Mathlib

/-!
Shallow embedding of the batch upload pipeline of `src/photo_uploader.py`
(JoeWalters/photo-uploader): filename validation (`allowed_file`), the
per-file ingestion loop (`process_files_batch`), duplicate-name resolution,
chunked batch processing (`handle_batch_upload`, `process_batch_synchronous`,
`process_batch_background`), the EXIF orientation step of `resize_image`,
and the status-poll serializer (`batch_status`).

The filesystem's upload directory is modelled as the list of filenames it
holds; `werkzeug.secure_filename` is an external collaborator, passed in as
an abstract `sanitize : String → String`; whether a file's bytes persist and
normalize without an exception is abstracted by a per-file `ok : Bool` flag;
wall-clock instants are `Nat` time units.
-/

namespace PhotoUploader

/-- Embeds `allowed_file` (src/photo_uploader.py lines 243-248): reject an
empty filename or one without a dot, otherwise take the part after the last
dot, lower-case it and test membership in the allowed-extension set. -/
def extAfterLastDot (l : List Char) : List Char :=
  (l.reverse.takeWhile (fun c => c ≠ '.')).reverse

def lowerString (s : String) : String :=
  String.mk (s.data.map Char.toLower)

def allowed_file (allowed : List String) (filename : String) : Bool :=
  if filename = "" then false
  else if filename.data.contains '.' then
    allowed.contains (lowerString (String.mk (extAfterLastDot filename.data)))
  else false

/-- Embeds Python's `os.path.splitext` as used at line 592: split at the last
dot, except that a name whose characters before that dot are all dots (for
example `.bashrc` or `...`) keeps its dot and gets an empty extension. -/
def lastDotSplit (l : List Char) : List Char × List Char :=
  let rev := l.reverse
  let extRev := rev.takeWhile (fun c => c ≠ '.')
  if extRev.length = rev.length then (l, [])
  else
    let stemRev := rev.drop (extRev.length + 1)
    if stemRev.all (fun c => c = '.') then (l, [])
    else (stemRev.reverse, '.' :: extRev.reverse)

def splitext (s : String) : String × String :=
  let p := lastDotSplit s.data
  (String.mk p.1, String.mk p.2)

/-- Embeds the candidate name `f"{name}_{counter}{ext}"` built at line 595. -/
def candName (stem ext : String) (k : Nat) : String :=
  stem ++ "_" ++ Nat.repr k ++ ext

/-- Embeds the `while os.path.exists(file_path)` probing loop of lines
593-597, fuelled: try `stem_k.ext`, `stem_(k+1).ext`, ... until a name is
free.  The callers always pass enough fuel for the loop to terminate the way
the Python loop does. -/
def probeFrom (fs : List String) (stem ext : String) : Nat → Nat → String
  | 0, k => candName stem ext k
  | fuel + 1, k =>
    if candName stem ext k ∈ fs then probeFrom fs stem ext fuel (k + 1)
    else candName stem ext k

/-- Embeds the duplicate-handling block of lines 590-597: keep the sanitized
name if no file of that name exists, otherwise split stem/extension and probe
`stem_1.ext`, `stem_2.ext`, ... for the first unused name. -/
def resolveName (fs : List String) (filename : String) : String :=
  if filename ∈ fs then
    probeFrom fs (splitext filename).1 (splitext filename).2 (fs.length + 1) 1
  else filename

/-- An incoming file of a batch: its untrusted filename, and whether its
persist-plus-normalize step (`file.save` then `resize_image`, lines 599-604)
runs without raising. -/
structure IncomingFile where
  filename : String
  ok : Bool
deriving DecidableEq, Repr

/-- Result of `process_files_batch`: the upload directory afterwards (most
recently written name first) and the three counters it returns. -/
structure BatchResult where
  fs : List String
  uploaded : Nat
  skipped : Nat
  errors : Nat
deriving DecidableEq, Repr

/-- Embeds `process_files_batch` (src/photo_uploader.py lines 565-617).
A file with an empty filename fails the `if file and file.filename != ''`
guard and is passed over without touching any counter; a disallowed or
unsanitizable name increments `skipped`; otherwise the name is resolved
against the directory and the file is written, with `uploaded` on success
and, on an exception, `errors` plus best-effort deletion of the partial
file (modelled as writing the resolved name and erasing it again). -/
def processFilesBatch (sanitize : String → String) (allowed : List String)
    (fs : List String) : List IncomingFile → BatchResult
  | [] => ⟨fs, 0, 0, 0⟩
  | f :: rest =>
    if f.filename = "" then
      processFilesBatch sanitize allowed fs rest
    else if allowed_file allowed f.filename = false then
      let r := processFilesBatch sanitize allowed fs rest
      { r with skipped := r.skipped + 1 }
    else
      let name := sanitize f.filename
      if name = "" then
        let r := processFilesBatch sanitize allowed fs rest
        { r with skipped := r.skipped + 1 }
      else
        let final := resolveName fs name
        if f.ok then
          let r := processFilesBatch sanitize allowed (final :: fs) rest
          { r with uploaded := r.uploaded + 1 }
        else
          let r := processFilesBatch sanitize allowed ((final :: fs).erase final) rest
          { r with errors := r.errors + 1 }

/-- Lifecycle state of a Batch Status Record: the `status` field values
`processing`, `completed` and `error` (lines 435, 483, 504). -/
inductive LifecycleState where
  | processing
  | completed
  | error
deriving DecidableEq, Repr

/-- Embeds the Batch Status Record dictionary created at lines 426-436:
`end_time` is absent until completion, modelled as an `Option`. -/
structure BatchStatus where
  total_files : Nat
  total_batches : Nat
  current_batch : Nat
  uploaded : Nat
  skipped : Nat
  errors : Nat
  completed : Bool
  status : LifecycleState
  start_time : Nat
  end_time : Option Nat
deriving DecidableEq, Repr

/-- Embeds the record initialization of `handle_batch_upload` (lines
419-436): `total_batches = (total_files + batch_size - 1) // batch_size`. -/
def initStatus (n b now : Nat) : BatchStatus :=
  { total_files := n
    total_batches := (n + b - 1) / b
    current_batch := 0
    uploaded := 0
    skipped := 0
    errors := 0
    completed := false
    status := .processing
    start_time := now
    end_time := none }

/-- Embeds the chunking of lines 465-468 (and identically 516-519):
chunk `i` is `files[i*b : min(i*b + b, len(files))]`, a Python slice,
which is `(files.take end).drop start`. -/
def chunkSlices (files : List IncomingFile) (b T : Nat) : List (List IncomingFile) :=
  (List.range T).map (fun i => (files.take (min (i * b + b) files.length)).drop (i * b))

/-- Embeds the per-chunk body of the loops at lines 465-479 and 516-530:
set `current_batch` to the next chunk index and add the three counters
returned by `process_files_batch`, threading the upload directory. -/
def stepChunk (sanitize : String → String) (allowed : List String)
    (fs : List String) (st : BatchStatus) (c : List IncomingFile) :
    List String × BatchStatus :=
  let r := processFilesBatch sanitize allowed fs c
  (r.fs,
    { st with
      current_batch := st.current_batch + 1
      uploaded := st.uploaded + r.uploaded
      skipped := st.skipped + r.skipped
      errors := st.errors + r.errors })

/-- The chunk loop of `process_batch_synchronous` / `process_batch_background`
run to the end: final directory and record. -/
def runChunks (sanitize : String → String) (allowed : List String) :
    List String → List (List IncomingFile) → BatchStatus → List String × BatchStatus
  | fs, [], st => (fs, st)
  | fs, c :: cs, st =>
    let p := stepChunk sanitize allowed fs st c
    runChunks sanitize allowed p.1 cs p.2

/-- The successive states of the Batch Status Record over the chunk loop:
the state before any chunk, then the state after each chunk.  This is what
a status poll can observe while the single worker runs the loop. -/
def runChunksTrace (sanitize : String → String) (allowed : List String) :
    List String → List (List IncomingFile) → BatchStatus → List BatchStatus
  | _, [], st => [st]
  | fs, c :: cs, st =>
    let p := stepChunk sanitize allowed fs st c
    st :: runChunksTrace sanitize allowed p.1 cs p.2

/-- Embeds the completion block of lines 481-497: mark completed, stamp the
end time, and start a 300-unit timer that evicts the record.  The second
component is the absolute instant at which the record leaves the store. -/
def finishOk (st : BatchStatus) (tEnd : Nat) : BatchStatus × Option Nat :=
  ({ st with completed := true, status := .completed, end_time := some tEnd },
    some (tEnd + 300))

/-- Embeds the `except` blocks of lines 501-507 and 545-549: mark the record
`error` and `completed`, touching nothing else — no end time is stamped and
no eviction timer is started. -/
def finishErr (st : BatchStatus) : BatchStatus × Option Nat :=
  ({ st with status := .error, completed := true }, none)

/-- Embeds `process_batch_synchronous` (lines 458-507).  `exn = none` is the
normal run; `exn = some k` is a run in which an exception escapes the chunk
loop after `k` chunks have been processed, landing in the `except` block with
the counts accumulated so far. -/
def processBatchSync (sanitize : String → String) (allowed : List String)
    (fs : List String) (files : List IncomingFile) (b now tEnd : Nat)
    (exn : Option Nat) : BatchStatus × Option Nat :=
  let st0 := initStatus files.length b now
  let chunks := chunkSlices files b st0.total_batches
  match exn with
  | none => finishOk (runChunks sanitize allowed fs chunks st0).2 tEnd
  | some k => finishErr (runChunks sanitize allowed fs (chunks.take k) st0).2

/-- Embeds `process_batch_background` (lines 509-549): the same loop,
completion block and `except` block as the synchronous path (the extra
`time.sleep(0.1)` between chunks does not touch the record). -/
def processBatchBackground (sanitize : String → String) (allowed : List String)
    (fs : List String) (files : List IncomingFile) (b now tEnd : Nat)
    (exn : Option Nat) : BatchStatus × Option Nat :=
  let st0 := initStatus files.length b now
  let chunks := chunkSlices files b st0.total_batches
  match exn with
  | none => finishOk (runChunks sanitize allowed fs chunks st0).2 tEnd
  | some k => finishErr (runChunks sanitize allowed fs (chunks.take k) st0).2

/-- Whether a record with the given scheduled eviction instant is still in
the store at instant `t`: `threading.Timer(300, ...pop...)` removes it at the
scheduled instant, and a record with no scheduled eviction stays forever. -/
def retrievableAt (evictAt : Option Nat) (t : Nat) : Bool :=
  match evictAt with
  | none => true
  | some e => decide (t < e)

/-- Which path `handle_batch_upload` takes after creating the record. -/
inductive UploadPath where
  | background
  | synchronous
deriving DecidableEq, Repr

/-- Embeds the decision of `handle_batch_upload` (lines 416-451): create the
Batch Status Record, then background processing iff
`total_files > batch_size * 2`, else the synchronous path. -/
def handleBatchUpload (files : List IncomingFile) (b now : Nat) :
    BatchStatus × UploadPath :=
  (initStatus files.length b now,
    if b * 2 < files.length then .background else .synchronous)

/-- Outcome of reading EXIF data in `resize_image` (lines 256-270): the read
can raise (caught by the `except` clause), return no EXIF mapping, or return
a mapping of numeric tags to values. -/
inductive ExifRead where
  | raised
  | noExif
  | tags (t : List (Nat × Nat))

/-- Embeds the orientation-correction step of `resize_image` (lines
253-270): with auto-rotate on, tag 274 (defaulting to 1) selects a rotation
of 180, 270 or 90 degrees for orientation 3, 6 or 8, and anything else —
including a missing mapping or a raising read — leaves the image unrotated.
The function is total: no input makes the step fail. -/
def exifRotationDegrees (autoRotate : Bool) (e : ExifRead) : Nat :=
  if autoRotate then
    match e with
    | .raised => 0
    | .noExif => 0
    | .tags t =>
      let o := (t.lookup 274).getD 1
      if o = 3 then 180
      else if o = 6 then 270
      else if o = 8 then 90
      else 0
  else 0

/-- The JSON document built by the `batch_status` route: timestamps rendered
as strings and a derived `progress_percent` rational. -/
structure BatchStatusJson where
  total_files : Nat
  total_batches : Nat
  current_batch : Nat
  uploaded : Nat
  skipped : Nat
  errors : Nat
  completed : Bool
  status : LifecycleState
  start_time : String
  end_time : Option String
  progress_percent : ℚ
deriving DecidableEq, Repr

/-- Embeds the serialization of `batch_status` (lines 796-816): copy the
record, render `start_time`/`end_time` through the ISO-8601 renderer `iso`
(`datetime.isoformat`, an external collaborator), and derive
`progress_percent = current_batch / total_batches * 100` when
`total_batches > 0`, else `0`. -/
def batchStatusJson (iso : Nat → String) (st : BatchStatus) : BatchStatusJson :=
  { total_files := st.total_files
    total_batches := st.total_batches
    current_batch := st.current_batch
    uploaded := st.uploaded
    skipped := st.skipped
    errors := st.errors
    completed := st.completed
    status := st.status
    start_time := iso st.start_time
    end_time := st.end_time.map iso
    progress_percent :=
      if 0 < st.total_batches then
        (st.current_batch : ℚ) / (st.total_batches : ℚ) * 100
      else 0 }

/-- Embeds the `batch_status` route (lines 796-816) against the status store
`batch_upload_status`, modelled as an association list: an identifier present
in the store is serialized, an absent one yields `none` (the 404 branch). -/
def batchStatusRoute (iso : Nat → String) (store : List (String × BatchStatus))
    (idTok : String) : Option BatchStatusJson :=
  (store.lookup idTok).map (batchStatusJson iso)

/-- Decimal digit list of a natural number, most significant first: the
specification of what `Nat.repr` produces. -/
def digitsAux (n : Nat) : List Char :=
  if _h : n < 10 then [Nat.digitChar n]
  else digitsAux (n / 10) ++ [Nat.digitChar (n % 10)]
decreasing_by exact Nat.div_lt_self (by omega) (by omega)

/-- Reads a decimal digit list back into the number it denotes. -/
def digitsVal (l : List Char) : Nat :=
  l.foldl (fun a c => a * 10 + (c.toNat - 48)) 0

/-- A small concrete batch of three valid files, used to instantiate the
general theorems at a concrete input. -/
def filesABC : List IncomingFile :=
  [⟨"a.jpg", true⟩, ⟨"b.jpg", true⟩, ⟨"c.jpg", true⟩]

/-- A concrete ISO renderer for instantiating the serialization theorems. -/
def sampleIso : Nat → String :=
  fun n => Nat.repr n

/-- A concrete one-record status store. -/
def sampleStore : List (String × BatchStatus) :=
  [("b1", initStatus 5 2 0)]

section ReprLemmas

lemma toDigitsCore_append (b : Nat) :
    ∀ (fuel n : Nat) (ds : List Char),
      Nat.toDigitsCore b fuel n ds = Nat.toDigitsCore b fuel n [] ++ ds := by
  intro fuel
  induction fuel with
  | zero => intro n ds; simp [Nat.toDigitsCore]
  | succ fuel ih =>
    intro n ds
    by_cases h : n / b = 0
    · simp [Nat.toDigitsCore, h]
    · simp only [Nat.toDigitsCore, h, if_false]
      rw [ih (n / b) (Nat.digitChar (n % b) :: ds), ih (n / b) [Nat.digitChar (n % b)]]
      simp

lemma toDigitsCore_eq_digitsAux :
    ∀ (fuel n : Nat), n < fuel → Nat.toDigitsCore 10 fuel n [] = digitsAux n := by
  intro fuel
  induction fuel with
  | zero => intro n h; omega
  | succ fuel ih =>
    intro n h
    by_cases h10 : n < 10
    · have hdiv : n / 10 = 0 := Nat.div_eq_of_lt h10
      have hmod : n % 10 = n := Nat.mod_eq_of_lt h10
      simp [Nat.toDigitsCore, hdiv, hmod, digitsAux, h10]
    · have hdiv : n / 10 ≠ 0 := by
        intro h0
        have := (Nat.div_eq_zero_iff (by omega : (0 : ℕ) < 10)).1 h0
        omega
      have hlt : n / 10 < fuel := by
        have : n / 10 < n := Nat.div_lt_self (by omega) (by omega)
        omega
      simp only [Nat.toDigitsCore, hdiv, if_false]
      rw [toDigitsCore_append, ih (n / 10) hlt]
      conv_rhs => rw [digitsAux]
      simp [h10]

lemma digitChar_toNat {d : Nat} (h : d < 10) : (Nat.digitChar d).toNat = 48 + d := by
  interval_cases d <;> rfl

lemma digitsVal_append_singleton (l : List Char) (c : Char) :
    digitsVal (l ++ [c]) = digitsVal l * 10 + (c.toNat - 48) := by
  simp [digitsVal, List.foldl_append]

lemma digitsVal_digitsAux (n : Nat) : digitsVal (digitsAux n) = n := by
  induction n using Nat.strong_induction_on with
  | _ n ih =>
    by_cases h : n < 10
    · rw [digitsAux]
      simp [h, digitsVal, digitChar_toNat h]
    · rw [digitsAux]
      simp only [h, dite_false]
      rw [digitsVal_append_singleton]
      have hmod : n % 10 < 10 := Nat.mod_lt _ (by omega)
      rw [ih (n / 10) (Nat.div_lt_self (by omega) (by omega)),
        digitChar_toNat hmod]
      have := Nat.div_add_mod n 10
      omega

lemma repr_data_inj {m n : Nat} (h : (Nat.repr m).data = (Nat.repr n).data) :
    m = n := by
  have hm : (Nat.repr m).data = digitsAux m := by
    show (List.asString (Nat.toDigits 10 m)).data = _
    rw [Nat.toDigits, toDigitsCore_eq_digitsAux (m + 1) m (Nat.lt_succ_self m)]
    rfl
  have hn : (Nat.repr n).data = digitsAux n := by
    show (List.asString (Nat.toDigits 10 n)).data = _
    rw [Nat.toDigits, toDigitsCore_eq_digitsAux (n + 1) n (Nat.lt_succ_self n)]
    rfl
  have : digitsAux m = digitsAux n := by rw [← hm, ← hn, h]
  have := congrArg digitsVal this
  rwa [digitsVal_digitsAux, digitsVal_digitsAux] at this

lemma candName_inj (stem ext : String) {j k : Nat}
    (h : candName stem ext j = candName stem ext k) : j = k := by
  have hd := congrArg String.data h
  simp only [candName, String.data_append] at hd
  have h1 : ('_' :: (Nat.repr j).data) ++ ext.data
      = ('_' :: (Nat.repr k).data) ++ ext.data := by
    have := @List.append_cancel_left _ stem.data _ _ (by simpa using hd)
    simpa using this
  have h2 : (Nat.repr j).data = (Nat.repr k).data := by
    have := List.append_cancel_right h1
    exact List.cons.inj this |>.2
  exact repr_data_inj h2

end ReprLemmas

section ResolveLemmas

lemma exists_free_cand (fs : List String) (stem ext : String) :
    ∃ k, 1 ≤ k ∧ k ≤ fs.length + 1 ∧ candName stem ext k ∉ fs := by
  by_contra hall
  push_neg at hall
  have hmaps : ∀ k ∈ Finset.Icc 1 (fs.length + 1),
      candName stem ext k ∈ fs.toFinset := by
    intro k hk
    rw [Finset.mem_Icc] at hk
    rw [List.mem_toFinset]
    exact hall k hk.1 hk.2
  have hinj : Set.InjOn (fun k => candName stem ext k)
      (Finset.Icc 1 (fs.length + 1)) := by
    intro a _ b _ hab
    exact candName_inj stem ext hab
  have hcard := Finset.card_le_card_of_injOn _ hmaps hinj
  rw [Nat.card_Icc] at hcard
  have := fs.toFinset_card_le
  omega

lemma probeFrom_eq (fs : List String) (stem ext : String) :
    ∀ (fuel k kmin : Nat), k ≤ kmin → kmin < k + fuel →
      candName stem ext kmin ∉ fs →
      (∀ j, k ≤ j → j < kmin → candName stem ext j ∈ fs) →
      probeFrom fs stem ext fuel k = candName stem ext kmin := by
  intro fuel
  induction fuel with
  | zero => intro k kmin h1 h2 _ _; omega
  | succ fuel ih =>
    intro k kmin h1 h2 h3 h4
    by_cases hk : k = kmin
    · subst hk
      simp [probeFrom, h3]
    · have hkin : candName stem ext k ∈ fs :=
        h4 k le_rfl (lt_of_le_of_ne h1 hk)
      simp only [probeFrom, hkin, if_true]
      exact ih (k + 1) kmin (by omega) (by omega) h3
        (fun j hj1 hj2 => h4 j (by omega) hj2)

lemma resolveName_spec (fs : List String) (base : String) (h : base ∈ fs) :
    ∃ k, 1 ≤ k ∧
      resolveName fs base = candName (splitext base).1 (splitext base).2 k ∧
      candName (splitext base).1 (splitext base).2 k ∉ fs ∧
      ∀ j, 1 ≤ j → j < k → candName (splitext base).1 (splitext base).2 j ∈ fs := by
  classical
  set stem := (splitext base).1
  set ext := (splitext base).2
  have hP : ∃ k, 1 ≤ k ∧ candName stem ext k ∉ fs := by
    obtain ⟨k, h1, _, h3⟩ := exists_free_cand fs stem ext
    exact ⟨k, h1, h3⟩
  set k₀ := Nat.find hP with hk₀
  have hspec := Nat.find_spec hP
  refine ⟨k₀, hspec.1, ?_, hspec.2, ?_⟩
  · have hbound : k₀ ≤ fs.length + 1 := by
      obtain ⟨k, h1, h2, h3⟩ := exists_free_cand fs stem ext
      exact le_trans (Nat.find_min' hP ⟨h1, h3⟩) h2
    have hbusy : ∀ j, 1 ≤ j → j < k₀ → candName stem ext j ∈ fs := by
      intro j hj1 hj2
      have := Nat.find_min hP hj2
      simp only [not_and, not_not] at this
      exact this hj1
    rw [resolveName, if_pos h]
    exact probeFrom_eq fs stem ext (fs.length + 1) 1 k₀ hspec.1 (by omega)
      hspec.2 hbusy
  · intro j hj1 hj2
    have := Nat.find_min hP hj2
    simp only [not_and, not_not] at this
    exact this hj1

lemma resolveName_not_mem (fs : List String) (base : String) :
    resolveName fs base ∉ fs := by
  by_cases h : base ∈ fs
  · obtain ⟨k, _, heq, hfree, _⟩ := resolveName_spec fs base h
    rw [heq]
    exact hfree
  · rw [resolveName, if_neg h]
    exact h

end ResolveLemmas

section ChunkLemmas

lemma slice_eq (l : List IncomingFile) (s b : Nat) :
    (l.take (min (s + b) l.length)).drop s = (l.drop s).take b := by
  rw [List.drop_take]
  rcases le_or_lt (s + b) l.length with h | h
  · rw [min_eq_left h]
    congr 1
    omega
  · rw [min_eq_right (le_of_lt h)]
    have h1 : (l.drop s).length ≤ l.length - s := by
      rw [List.length_drop]
    rw [List.take_of_length_le (by omega), List.take_of_length_le (by omega)]

lemma chunkSlices_length (files : List IncomingFile) (b T : Nat) :
    (chunkSlices files b T).length = T := by
  simp [chunkSlices]

lemma chunkSlices_getD (files : List IncomingFile) (b T i : Nat) (h : i < T) :
    (chunkSlices files b T).getD i [] = (files.drop (i * b)).take b := by
  rw [List.getD_eq_getElem _ _ (by simpa [chunkSlices_length] using h)]
  simp only [chunkSlices, List.getElem_map, List.getElem_range]
  exact slice_eq files (i * b) b

lemma chunkSlices_mem_length (files : List IncomingFile) (b T : Nat)
    (c : List IncomingFile) (hc : c ∈ chunkSlices files b T) : c.length ≤ b := by
  simp only [chunkSlices, List.mem_map, List.mem_range] at hc
  obtain ⟨i, _, hi⟩ := hc
  rw [← hi, slice_eq files (i * b) b]
  exact le_trans (List.length_take_le b _) le_rfl

lemma join_chunkSlices (files : List IncomingFile) (b : Nat) :
    ∀ T, (chunkSlices files b T).flatten = files.take (T * b) := by
  intro T
  induction T with
  | zero => simp [chunkSlices]
  | succ T ih =>
    have : chunkSlices files b (T + 1)
        = chunkSlices files b T
          ++ [(files.take (min (T * b + b) files.length)).drop (T * b)] := by
      simp [chunkSlices, List.range_succ]
    rw [this, List.flatten_append, ih]
    simp only [List.flatten_cons, List.flatten_nil, List.append_nil]
    rw [slice_eq files (T * b) b, ← List.take_add]
    congr 1
    rw [Nat.succ_mul]

lemma ceil_mul_ge (n b : Nat) (hb : 0 < b) : n ≤ ((n + b - 1) / b) * b := by
  have h1 : n ⌈/⌉ b = (n + b - 1) / b := Nat.ceilDiv_eq_add_pred_div n b
  have h2 : n ≤ b • (n ⌈/⌉ b) := le_smul_ceilDiv hb
  rw [h1, smul_eq_mul] at h2
  rw [mul_comm]
  exact h2

lemma join_chunkSlices_full (files : List IncomingFile) (b : Nat) (hb : 0 < b) :
    (chunkSlices files b ((files.length + b - 1) / b)).flatten = files := by
  rw [join_chunkSlices]
  exact List.take_of_length_le (ceil_mul_ge files.length b hb)

end ChunkLemmas

section CountLemmas

lemma processFilesBatch_sum (sanitize : String → String) (allowed : List String) :
    ∀ (files : List IncomingFile) (fs : List String),
      (processFilesBatch sanitize allowed fs files).uploaded
        + (processFilesBatch sanitize allowed fs files).skipped
        + (processFilesBatch sanitize allowed fs files).errors
      = (files.filter (fun f => f.filename != "")).length := by
  intro files
  induction files with
  | nil => intro fs; simp [processFilesBatch]
  | cons f rest ih =>
    intro fs
    by_cases h1 : f.filename = ""
    · simp [processFilesBatch, h1, ih fs]
    · cases hb : allowed_file allowed f.filename with
      | false =>
        have hr := ih fs
        simp [processFilesBatch, h1, hb] at hr ⊢
        omega
      | true =>
        by_cases h3 : sanitize f.filename = ""
        · have hr := ih fs
          simp [processFilesBatch, h1, hb, h3] at hr ⊢
          omega
        · cases ho : f.ok with
          | true =>
            have hr := ih (resolveName fs (sanitize f.filename) :: fs)
            simp [processFilesBatch, h1, hb, h3, ho] at hr ⊢
            omega
          | false =>
            have hr := ih ((resolveName fs (sanitize f.filename) :: fs).erase
              (resolveName fs (sanitize f.filename)))
            simp [processFilesBatch, h1, hb, h3, ho] at hr ⊢
            omega

lemma stepChunk_fields (sanitize : String → String) (allowed : List String)
    (fs : List String) (st : BatchStatus) (c : List IncomingFile) :
    (stepChunk sanitize allowed fs st c).2.total_files = st.total_files
      ∧ (stepChunk sanitize allowed fs st c).2.total_batches = st.total_batches
      ∧ (stepChunk sanitize allowed fs st c).2.current_batch = st.current_batch + 1
      ∧ (stepChunk sanitize allowed fs st c).2.uploaded
          + (stepChunk sanitize allowed fs st c).2.skipped
          + (stepChunk sanitize allowed fs st c).2.errors
        = st.uploaded + st.skipped + st.errors
          + (c.filter (fun f => f.filename != "")).length := by
  refine ⟨rfl, rfl, rfl, ?_⟩
  simp only [stepChunk]
  have := processFilesBatch_sum sanitize allowed c fs
  omega

lemma runChunks_sum (sanitize : String → String) (allowed : List String) :
    ∀ (cs : List (List IncomingFile)) (fs : List String) (st : BatchStatus),
      (runChunks sanitize allowed fs cs st).2.uploaded
        + (runChunks sanitize allowed fs cs st).2.skipped
        + (runChunks sanitize allowed fs cs st).2.errors
      = st.uploaded + st.skipped + st.errors
        + (cs.flatten.filter (fun f => f.filename != "")).length := by
  intro cs
  induction cs with
  | nil => intro fs st; simp [runChunks]
  | cons c cs ih =>
    intro fs st
    simp only [runChunks]
    rw [ih]
    have := (stepChunk_fields sanitize allowed fs st c).2.2.2
    simp only [List.flatten_cons, List.filter_append, List.length_append]
    omega

lemma runChunks_end_time (sanitize : String → String) (allowed : List String) :
    ∀ (cs : List (List IncomingFile)) (fs : List String) (st : BatchStatus),
      (runChunks sanitize allowed fs cs st).2.end_time = st.end_time := by
  intro cs
  induction cs with
  | nil => intro fs st; rfl
  | cons c cs ih => intro fs st; simp only [runChunks]; rw [ih]; rfl

lemma runChunks_total_files (sanitize : String → String) (allowed : List String) :
    ∀ (cs : List (List IncomingFile)) (fs : List String) (st : BatchStatus),
      (runChunks sanitize allowed fs cs st).2.total_files = st.total_files := by
  intro cs
  induction cs with
  | nil => intro fs st; rfl
  | cons c cs ih => intro fs st; simp only [runChunks]; rw [ih]; rfl

lemma runChunksTrace_mem (sanitize : String → String) (allowed : List String) :
    ∀ (cs : List (List IncomingFile)) (fs : List String) (st : BatchStatus)
      (x : BatchStatus), x ∈ runChunksTrace sanitize allowed fs cs st →
      x.uploaded + x.skipped + x.errors
        ≤ st.uploaded + st.skipped + st.errors
          + (cs.flatten.filter (fun f => f.filename != "")).length
      ∧ x.total_files = st.total_files := by
  intro cs
  induction cs with
  | nil =>
    intro fs st x hx
    simp only [runChunksTrace, List.mem_singleton] at hx
    subst hx
    exact ⟨by simp, rfl⟩
  | cons c cs ih =>
    intro fs st x hx
    simp only [runChunksTrace, List.mem_cons] at hx
    rcases hx with hx | hx
    · subst hx
      exact ⟨by simp, rfl⟩
    · have h1 := ih _ _ _ hx
      have h2 := stepChunk_fields sanitize allowed fs st c
      simp only [List.flatten_cons, List.filter_append, List.length_append]
      exact ⟨by omega, by rw [h1.2, h2.1]⟩

lemma runChunksTrace_currents (sanitize : String → String) (allowed : List String) :
    ∀ (cs : List (List IncomingFile)) (fs : List String) (st : BatchStatus),
      (runChunksTrace sanitize allowed fs cs st).map (fun x => x.current_batch)
        = List.range' st.current_batch (cs.length + 1) := by
  intro cs
  induction cs with
  | nil => intro fs st; simp [runChunksTrace, List.range'_succ]
  | cons c cs ih =>
    intro fs st
    simp only [runChunksTrace, List.map_cons, List.length_cons]
    rw [ih, List.range'_succ]
    rfl

lemma range_getD_mono (n i j : Nat) (hij : i ≤ j) (hj : j < n) :
    (List.range n).getD i 0 ≤ (List.range n).getD j 0 := by
  rw [List.getD_eq_getElem _ _ (by simpa using lt_of_le_of_lt hij hj),
    List.getD_eq_getElem _ _ (by simpa using hj)]
  simpa using hij

end CountLemmas

section ClaimTheorems

/-- Claim C2: the orchestrator creates the status record and chooses the
background path if and only if `n > 2·b`; otherwise the batch is processed
synchronously; in particular with `b = 50`, 101 files go to the background
path and 100 files are processed synchronously. -/
theorem claim2_background_iff :
    (∀ (files : List IncomingFile) (b now : Nat),
      ((handleBatchUpload files b now).2 = UploadPath.background
          ↔ b * 2 < files.length)
        ∧ (handleBatchUpload files b now).1 = initStatus files.length b now) ∧
    (handleBatchUpload (List.replicate 101 ⟨"a.jpg", true⟩) 50 0).2
        = UploadPath.background ∧
    (handleBatchUpload (List.replicate 100 ⟨"a.jpg", true⟩) 50 0).2
        = UploadPath.synchronous := by
  refine ⟨fun files b now => ⟨?_, rfl⟩, ?_, ?_⟩
  · by_cases h : b * 2 < files.length
    · simp [handleBatchUpload, h]
    · simp [handleBatchUpload, h]
  · simp [handleBatchUpload]
  · simp [handleBatchUpload]

/-- Claim C3: `total_batches = ceil(n/b)` and the files are processed as the
consecutive Python slices `files[i*b : min((i+1)*b, n)]`: every chunk holds
at most `b` files, chunk `i` is the `i`-th consecutive slice, and the
concatenation of all chunks in order is the original file list. -/
theorem claim3_chunking (files : List IncomingFile) (b now : Nat) (hb : 0 < b) :
    (initStatus files.length b now).total_batches = files.length ⌈/⌉ b ∧
    (chunkSlices files b ((files.length + b - 1) / b)).length
        = (files.length + b - 1) / b ∧
    (∀ c ∈ chunkSlices files b ((files.length + b - 1) / b), c.length ≤ b) ∧
    (∀ i, i < (files.length + b - 1) / b →
      (chunkSlices files b ((files.length + b - 1) / b)).getD i []
        = (files.drop (i * b)).take b) ∧
    (chunkSlices files b ((files.length + b - 1) / b)).flatten = files := by
  refine ⟨?_, chunkSlices_length _ _ _,
    fun c hc => chunkSlices_mem_length _ _ _ c hc,
    fun i hi => chunkSlices_getD _ _ _ i hi,
    join_chunkSlices_full files b hb⟩
  rw [Nat.ceilDiv_eq_add_pred_div]
  rfl

/-- Witness for C3 at a concrete batch: three files with chunk size two. -/
theorem claim3_chunking_witness :
    (chunkSlices filesABC 2 ((filesABC.length + 2 - 1) / 2)).flatten = filesABC :=
  (claim3_chunking filesABC 2 0 (by decide)).2.2.2.2

/-- Claim C6: the Filename Resolver keeps a name that does not yet exist in
the directory; for an existing name it returns `stem_k.ext` for the smallest
counter `k ≥ 1` whose candidate does not exist; two files named `photo.jpg`
in one batch are stored as `photo.jpg` and `photo_1.jpg`, and a third upload
of `photo.jpg` is then stored as `photo_2.jpg`. -/
theorem claim6_collision_probe :
    (∀ (fs : List String) (base : String), base ∉ fs →
      resolveName fs base = base) ∧
    (∀ (fs : List String) (base : String), base ∈ fs →
      ∃ k, 1 ≤ k ∧
        resolveName fs base
          = candName (splitext base).1 (splitext base).2 k ∧
        candName (splitext base).1 (splitext base).2 k ∉ fs ∧
        ∀ j, 1 ≤ j → j < k →
          candName (splitext base).1 (splitext base).2 j ∈ fs) ∧
    (processFilesBatch (fun s => s) ["jpg"] []
        [⟨"photo.jpg", true⟩, ⟨"photo.jpg", true⟩]).fs
      = ["photo_1.jpg", "photo.jpg"] ∧
    (processFilesBatch (fun s => s) ["jpg"] ["photo_1.jpg", "photo.jpg"]
        [⟨"photo.jpg", true⟩]).fs
      = ["photo_2.jpg", "photo_1.jpg", "photo.jpg"] := by
  refine ⟨fun fs base h => ?_, fun fs base h => resolveName_spec fs base h,
    by decide, by decide⟩
  rw [resolveName, if_neg h]

/-- Claim C7 as the code has it: an empty filename fails the
`if file and file.filename != ''` guard and is passed over without touching
any counter, while a nonempty filename that fails the extension check or
sanitizes to the empty string is counted as exactly one `skipped` and writes
nothing to the upload directory; none of these raise. -/
theorem claim7_validation_skip (sanitize : String → String)
    (allowed fs : List String) (f : IncomingFile) (rest : List IncomingFile) :
    (f.filename = "" →
      processFilesBatch sanitize allowed fs (f :: rest)
        = processFilesBatch sanitize allowed fs rest) ∧
    (f.filename ≠ "" → allowed_file allowed f.filename = false →
      processFilesBatch sanitize allowed fs (f :: rest)
        = (let r := processFilesBatch sanitize allowed fs rest
           { r with skipped := r.skipped + 1 })) ∧
    (f.filename ≠ "" → allowed_file allowed f.filename = true →
      sanitize f.filename = "" →
      processFilesBatch sanitize allowed fs (f :: rest)
        = (let r := processFilesBatch sanitize allowed fs rest
           { r with skipped := r.skipped + 1 })) := by
  refine ⟨fun h1 => ?_, fun h1 h2 => ?_, fun h1 h2 h3 => ?_⟩
  · simp [processFilesBatch, h1]
  · simp [processFilesBatch, h1, h2]
  · simp [processFilesBatch, h1, h2, h3]

/-- Counterexample to C7 as stated: a file whose filename is the empty
string is not counted in the skipped counter (nor anywhere else). -/
theorem claim7_cex :
    (processFilesBatch (fun s => s) ["jpg"] [] [⟨"", true⟩]).skipped = 0 ∧
    (processFilesBatch (fun s => s) ["jpg"] [] [⟨"", true⟩]).uploaded = 0 ∧
    (processFilesBatch (fun s => s) ["jpg"] [] [⟨"", true⟩]).errors = 0 ∧
    (processFilesBatch (fun s => s) ["jpg"] [] [⟨"", true⟩]).fs = [] := by
  decide

/-- Claim C8: with auto-rotate enabled, EXIF orientation 3 rotates 180°,
6 rotates 270°, 8 rotates 90°, and any other orientation value — or a
missing or raising EXIF read — leaves the image unrotated; the step is a
total function, so it never fails. -/
theorem claim8_exif_orientation (t : List (Nat × Nat)) :
    ((t.lookup 274).getD 1 = 3 →
      exifRotationDegrees true (ExifRead.tags t) = 180) ∧
    ((t.lookup 274).getD 1 = 6 →
      exifRotationDegrees true (ExifRead.tags t) = 270) ∧
    ((t.lookup 274).getD 1 = 8 →
      exifRotationDegrees true (ExifRead.tags t) = 90) ∧
    ((t.lookup 274).getD 1 ≠ 3 → (t.lookup 274).getD 1 ≠ 6 →
      (t.lookup 274).getD 1 ≠ 8 →
      exifRotationDegrees true (ExifRead.tags t) = 0) ∧
    exifRotationDegrees true ExifRead.noExif = 0 ∧
    exifRotationDegrees true ExifRead.raised = 0 := by
  refine ⟨fun h => ?_, fun h => ?_, fun h => ?_, fun h3 h6 h8 => ?_, rfl, rfl⟩
  · simp [exifRotationDegrees, h]
  · simp [exifRotationDegrees, h]
  · simp [exifRotationDegrees, h]
  · simp [exifRotationDegrees, h3, h6, h8]

/-- Claim C1 (amended): the three counters of the Batch Status Record sum
to at most the total file count at every point of the chunk loop; once the
run completes, the sum equals the number of files whose filename is
nonempty — which is the total file count exactly when no file of the batch
has an empty filename, an empty-filename file being passed over uncounted. -/
theorem claim1_counts (sanitize : String → String) (allowed fs : List String)
    (files : List IncomingFile) (b now tEnd : Nat) (hb : 0 < b) :
    (∀ x ∈ runChunksTrace sanitize allowed fs
        (chunkSlices files b ((files.length + b - 1) / b))
        (initStatus files.length b now),
      x.uploaded + x.skipped + x.errors ≤ x.total_files) ∧
    ((processBatchSync sanitize allowed fs files b now tEnd none).1.status
        = LifecycleState.completed ∧
      (processBatchSync sanitize allowed fs files b now tEnd none).1.uploaded
        + (processBatchSync sanitize allowed fs files b now tEnd none).1.skipped
        + (processBatchSync sanitize allowed fs files b now tEnd none).1.errors
        = (files.filter (fun f => f.filename != "")).length ∧
      (processBatchSync sanitize allowed fs files b now tEnd none).1.uploaded
        + (processBatchSync sanitize allowed fs files b now tEnd none).1.skipped
        + (processBatchSync sanitize allowed fs files b now tEnd none).1.errors
        ≤ (processBatchSync sanitize allowed fs files b now tEnd none).1.total_files ∧
      ((∀ f ∈ files, f.filename ≠ "") →
        (processBatchSync sanitize allowed fs files b now tEnd none).1.uploaded
          + (processBatchSync sanitize allowed fs files b now tEnd none).1.skipped
          + (processBatchSync sanitize allowed fs files b now tEnd none).1.errors
          = (processBatchSync sanitize allowed fs files b now tEnd none).1.total_files)) := by
  have hflat : (chunkSlices files b ((files.length + b - 1) / b)).flatten
      = files := join_chunkSlices_full files b hb
  have hq := runChunks_sum sanitize allowed
    (chunkSlices files b ((files.length + b - 1) / b)) fs
    (initStatus files.length b now)
  have htf := runChunks_total_files sanitize allowed
    (chunkSlices files b ((files.length + b - 1) / b)) fs
    (initStatus files.length b now)
  rw [hflat] at hq
  have h0u : (initStatus files.length b now).uploaded = 0 := rfl
  have h0s : (initStatus files.length b now).skipped = 0 := rfl
  have h0e : (initStatus files.length b now).errors = 0 := rfl
  have h0t : (initStatus files.length b now).total_files = files.length := rfl
  rw [h0u, h0s, h0e] at hq
  rw [h0t] at htf
  have hfle := List.length_filter_le (fun f => f.filename != "") files
  have hu : (processBatchSync sanitize allowed fs files b now tEnd none).1.uploaded
      = (runChunks sanitize allowed fs
          (chunkSlices files b ((files.length + b - 1) / b))
          (initStatus files.length b now)).2.uploaded := rfl
  have hs : (processBatchSync sanitize allowed fs files b now tEnd none).1.skipped
      = (runChunks sanitize allowed fs
          (chunkSlices files b ((files.length + b - 1) / b))
          (initStatus files.length b now)).2.skipped := rfl
  have he : (processBatchSync sanitize allowed fs files b now tEnd none).1.errors
      = (runChunks sanitize allowed fs
          (chunkSlices files b ((files.length + b - 1) / b))
          (initStatus files.length b now)).2.errors := rfl
  have ht : (processBatchSync sanitize allowed fs files b now tEnd none).1.total_files
      = (runChunks sanitize allowed fs
          (chunkSlices files b ((files.length + b - 1) / b))
          (initStatus files.length b now)).2.total_files := rfl
  refine ⟨fun x hx => ?_, rfl, ?_, ?_, fun hall => ?_⟩
  · have h := runChunksTrace_mem sanitize allowed _ _ _ x hx
    rw [hflat] at h
    obtain ⟨hle, heq⟩ := h
    rw [h0u, h0s, h0e] at hle
    rw [h0t] at heq
    omega
  · omega
  · omega
  · have hfe : files.filter (fun f => f.filename != "") = files :=
      List.filter_eq_self.mpr (fun a ha => by simpa using hall a ha)
    rw [hfe] at hq
    omega

/-- Witness for C1 at a concrete batch with no empty filename: the counter
sum reaches the total file count. -/
theorem claim1_counts_witness :
    (processBatchSync (fun s => s) ["jpg"] [] filesABC 2 0 9 none).1.uploaded
      + (processBatchSync (fun s => s) ["jpg"] [] filesABC 2 0 9 none).1.skipped
      + (processBatchSync (fun s => s) ["jpg"] [] filesABC 2 0 9 none).1.errors
      = (processBatchSync (fun s => s) ["jpg"] [] filesABC 2 0 9 none).1.total_files :=
  (claim1_counts (fun s => s) ["jpg"] [] filesABC 2 0 9 (by decide)).2.2.2.2
    (by decide)

/-- Counterexample to C1 as stated: a completed batch holding one file whose
filename is the empty string ends with counters summing to 0, not to the
total file count 1. -/
theorem claim1_cex :
    (processBatchSync (fun s => s) ["jpg"] [] [⟨"", true⟩] 1 0 0 none).1.status
        = LifecycleState.completed ∧
    ¬ ((processBatchSync (fun s => s) ["jpg"] [] [⟨"", true⟩] 1 0 0 none).1.uploaded
        + (processBatchSync (fun s => s) ["jpg"] [] [⟨"", true⟩] 1 0 0 none).1.skipped
        + (processBatchSync (fun s => s) ["jpg"] [] [⟨"", true⟩] 1 0 0 none).1.errors
        = (processBatchSync (fun s => s) ["jpg"] [] [⟨"", true⟩] 1 0 0 none).1.total_files) := by
  decide

/-- Claim C4: a file whose persist-or-normalize step raises is counted as
exactly one error; the file written at the resolved destination is removed
again, the upload directory is left as it was (the resolved name never was
an earlier upload, so none is touched), and the remaining files of the
batch are still processed from that unchanged directory. -/
theorem claim4_error_cleanup (sanitize : String → String)
    (allowed fs : List String) (f : IncomingFile) (rest : List IncomingFile)
    (h1 : f.filename ≠ "") (h2 : allowed_file allowed f.filename = true)
    (h3 : sanitize f.filename ≠ "") (h4 : f.ok = false) :
    processFilesBatch sanitize allowed fs (f :: rest)
      = (let r := processFilesBatch sanitize allowed fs rest
         { r with errors := r.errors + 1 }) ∧
    resolveName fs (sanitize f.filename) ∉ fs := by
  refine ⟨?_, resolveName_not_mem fs (sanitize f.filename)⟩
  simp [processFilesBatch, h1, h2, h3, h4, List.erase_cons_head]

/-- Witness for C4: one corrupt file in an empty directory yields exactly
one error and leaves the directory empty. -/
theorem claim4_error_cleanup_witness :
    (processFilesBatch (fun s => s) ["jpg"] [] [⟨"bad.jpg", false⟩]
      = (let r := processFilesBatch (fun s => s) ["jpg"] ([] : List String) []
         { r with errors := r.errors + 1 }) ∧
     resolveName [] ((fun s : String => s) "bad.jpg") ∉ ([] : List String)) :=
  claim4_error_cleanup (fun s => s) ["jpg"] [] ⟨"bad.jpg", false⟩ []
    (by decide) (by decide) (by decide) rfl

/-- Claim C5 (amended): a normal run ends `completed` with the end time
stamped and the record evicted 300 time units later; a run whose chunk loop
is escaped by an exception ends `error` with the accumulated counts
preserved, but no end timestamp is stamped and no eviction is scheduled, so
that record stays retrievable indefinitely; the background worker treats
the record exactly as the synchronous path does. -/
theorem claim5_completion (sanitize : String → String) (allowed fs : List String)
    (files : List IncomingFile) (b now tEnd : Nat) :
    ((processBatchSync sanitize allowed fs files b now tEnd none).1.status
        = LifecycleState.completed ∧
      (processBatchSync sanitize allowed fs files b now tEnd none).1.completed = true ∧
      (processBatchSync sanitize allowed fs files b now tEnd none).1.end_time
        = some tEnd ∧
      (processBatchSync sanitize allowed fs files b now tEnd none).2
        = some (tEnd + 300) ∧
      ∀ t, tEnd + 300 ≤ t →
        retrievableAt (processBatchSync sanitize allowed fs files b now tEnd none).2 t
          = false) ∧
    (∀ k,
      (processBatchSync sanitize allowed fs files b now tEnd (some k)).1.status
          = LifecycleState.error ∧
      (processBatchSync sanitize allowed fs files b now tEnd (some k)).1.completed
          = true ∧
      (processBatchSync sanitize allowed fs files b now tEnd (some k)).1.end_time
          = none ∧
      (processBatchSync sanitize allowed fs files b now tEnd (some k)).2 = none ∧
      (∀ t, retrievableAt
          (processBatchSync sanitize allowed fs files b now tEnd (some k)).2 t
        = true) ∧
      (processBatchSync sanitize allowed fs files b now tEnd (some k)).1.uploaded
        = (runChunks sanitize allowed fs
            ((chunkSlices files b ((files.length + b - 1) / b)).take k)
            (initStatus files.length b now)).2.uploaded ∧
      (processBatchSync sanitize allowed fs files b now tEnd (some k)).1.skipped
        = (runChunks sanitize allowed fs
            ((chunkSlices files b ((files.length + b - 1) / b)).take k)
            (initStatus files.length b now)).2.skipped ∧
      (processBatchSync sanitize allowed fs files b now tEnd (some k)).1.errors
        = (runChunks sanitize allowed fs
            ((chunkSlices files b ((files.length + b - 1) / b)).take k)
            (initStatus files.length b now)).2.errors) ∧
    (∀ exn, processBatchBackground sanitize allowed fs files b now tEnd exn
        = processBatchSync sanitize allowed fs files b now tEnd exn) := by
  refine ⟨⟨rfl, rfl, rfl, rfl, fun t ht => ?_⟩,
    fun k => ⟨rfl, rfl, ?_, rfl, fun t => rfl, rfl, rfl, rfl⟩,
    fun exn => rfl⟩
  · show retrievableAt (some (tEnd + 300)) t = false
    simp only [retrievableAt]
    exact decide_eq_false (by omega)
  · show (runChunks sanitize allowed fs
        ((chunkSlices files b ((files.length + b - 1) / b)).take k)
        (initStatus files.length b now)).2.end_time = none
    rw [runChunks_end_time]
    rfl

/-- Counterexample to C5 as stated: a run whose chunk loop raises reaches
the terminal `error` state with no end timestamp stamped and no eviction
scheduled, so the record is still retrievable 1000 time units later. -/
theorem claim5_cex :
    (processBatchSync (fun s => s) ["jpg"] [] [⟨"a.jpg", true⟩] 1 0 5 (some 0)).1.status
        = LifecycleState.error ∧
    (processBatchSync (fun s => s) ["jpg"] [] [⟨"a.jpg", true⟩] 1 0 5 (some 0)).1.end_time
        = none ∧
    (processBatchSync (fun s => s) ["jpg"] [] [⟨"a.jpg", true⟩] 1 0 5 (some 0)).2
        = none ∧
    retrievableAt
        (processBatchSync (fun s => s) ["jpg"] [] [⟨"a.jpg", true⟩] 1 0 5 (some 0)).2
        1000
      = true := by
  decide

/-- Claim C9: over one batch run, the `current_batch` values observable in
the Batch Status Record are exactly `0, 1, ..., total_batches` in order, so
successive polls of the record see a monotonically non-decreasing
`current_batch` never exceeding `total_batches`. -/
theorem claim9_monotone_progress (sanitize : String → String)
    (allowed fs : List String) (files : List IncomingFile) (b now : Nat) :
    ((runChunksTrace sanitize allowed fs
        (chunkSlices files b ((files.length + b - 1) / b))
        (initStatus files.length b now)).map (fun x => x.current_batch)
      = List.range ((files.length + b - 1) / b + 1)) ∧
    (∀ i j, i ≤ j →
      j < ((runChunksTrace sanitize allowed fs
        (chunkSlices files b ((files.length + b - 1) / b))
        (initStatus files.length b now)).map (fun x => x.current_batch)).length →
      ((runChunksTrace sanitize allowed fs
        (chunkSlices files b ((files.length + b - 1) / b))
        (initStatus files.length b now)).map (fun x => x.current_batch)).getD i 0
        ≤ ((runChunksTrace sanitize allowed fs
        (chunkSlices files b ((files.length + b - 1) / b))
        (initStatus files.length b now)).map (fun x => x.current_batch)).getD j 0) ∧
    (∀ x ∈ runChunksTrace sanitize allowed fs
        (chunkSlices files b ((files.length + b - 1) / b))
        (initStatus files.length b now),
      x.current_batch ≤ (initStatus files.length b now).total_batches) := by
  have hmap := runChunksTrace_currents sanitize allowed
    (chunkSlices files b ((files.length + b - 1) / b)) fs
    (initStatus files.length b now)
  rw [chunkSlices_length] at hmap
  have hc0 : (initStatus files.length b now).current_batch = 0 := rfl
  rw [hc0] at hmap
  have hmap' : (runChunksTrace sanitize allowed fs
      (chunkSlices files b ((files.length + b - 1) / b))
      (initStatus files.length b now)).map (fun x => x.current_batch)
      = List.range ((files.length + b - 1) / b + 1) := by
    rw [hmap, List.range_eq_range']
  refine ⟨hmap', fun i j hij hj => ?_, fun x hx => ?_⟩
  · rw [hmap'] at hj ⊢
    rw [List.length_range] at hj
    exact range_getD_mono _ i j hij hj
  · have hmem : x.current_batch ∈ List.range ((files.length + b - 1) / b + 1) := by
      rw [← hmap']
      exact List.mem_map_of_mem (fun x => x.current_batch) hx
    rw [List.mem_range] at hmem
    show x.current_batch ≤ (files.length + b - 1) / b
    omega

/-- Claim C10: polling an identifier present in the status store returns
its record serialized, with the timestamps rendered through the ISO-8601
renderer and a derived `progress_percent` equal to
`current_batch / total_batches * 100` when `total_batches > 0` and to `0`
when `total_batches = 0`, never a division error. -/
theorem claim10_poll_json (iso : Nat → String)
    (store : List (String × BatchStatus)) (idTok : String) (st : BatchStatus)
    (h : store.lookup idTok = some st) :
    batchStatusRoute iso store idTok = some (batchStatusJson iso st) ∧
    (batchStatusJson iso st).total_files = st.total_files ∧
    (batchStatusJson iso st).total_batches = st.total_batches ∧
    (batchStatusJson iso st).current_batch = st.current_batch ∧
    (batchStatusJson iso st).uploaded = st.uploaded ∧
    (batchStatusJson iso st).skipped = st.skipped ∧
    (batchStatusJson iso st).errors = st.errors ∧
    (batchStatusJson iso st).completed = st.completed ∧
    (batchStatusJson iso st).status = st.status ∧
    (batchStatusJson iso st).start_time = iso st.start_time ∧
    (batchStatusJson iso st).end_time = st.end_time.map iso ∧
    (0 < st.total_batches →
      (batchStatusJson iso st).progress_percent
        = (st.current_batch : ℚ) / (st.total_batches : ℚ) * 100) ∧
    (st.total_batches = 0 →
      (batchStatusJson iso st).progress_percent = 0) := by
  refine ⟨?_, rfl, rfl, rfl, rfl, rfl, rfl, rfl, rfl, rfl, rfl, ?_, ?_⟩
  · simp [batchStatusRoute, h]
  · intro hpos
    simp [batchStatusJson, hpos]
  · intro h0
    simp [batchStatusJson, h0]

/-- Witness for C10: a store holding one record is polled successfully. -/
theorem claim10_poll_json_witness :
    batchStatusRoute sampleIso sampleStore "b1"
      = some (batchStatusJson sampleIso (initStatus 5 2 0)) :=
  (claim10_poll_json sampleIso sampleStore "b1" (initStatus 5 2 0) rfl).1

end ClaimTheorems

end PhotoUploader
